import Mathlib

/-!
Verification of the gfdl_utils repository (src/gfdl_utils/core.py) against its
natural-language specification.  Strings are modelled as lists of characters;
the filesystem and the external shell commands (glob, dmget, dmls, gcp, the
isfile checks) are modelled as explicit environment functions passed to each
operation.  Each definition below is a direct translation of the corresponding
Python function in core.py.
-/

set_option autoImplicit false

namespace GfdlUtils

/-- Convert a string literal to the character-list representation used
throughout this development. -/
def str (s : String) : List Char :=
  s.toList

/-- Python str.join with a one-character separator: joins the segments,
inserting the separator character between consecutive segments. -/
def joinSep (c : Char) : List (List Char) → List Char
  | [] => []
  | [x] => x
  | x :: y :: rest => x ++ c :: joinSep c (y :: rest)

/-- Python str.split with a one-character separator: always returns at least
one (possibly empty) segment. -/
def splitOn (sep : Char) : List Char → List (List Char)
  | [] => [[]]
  | a :: rest =>
      match splitOn sep rest with
      | [] => [[]]
      | h :: t => if a = sep then [] :: h :: t else (a :: h) :: t

/-- Python str.replace applied to the pattern of two consecutive slashes with
a single-slash replacement: a single left-to-right pass that, after replacing
a match, resumes scanning after the replaced text (this is why a run of three
slashes leaves a doubled slash behind, exactly as in Python). -/
def replaceDS : List Char → List Char
  | [] => []
  | [c] => [c]
  | a :: b :: rest =>
      if a = '/' ∧ b = '/' then '/' :: replaceDS rest
      else a :: replaceDS (b :: rest)

/-- Whether the string contains two consecutive slash characters. -/
def hasDouble : List Char → Bool
  | [] => false
  | [_] => false
  | a :: b :: rest => (a == '/' && b == '/') || hasDouble (b :: rest)

/-- Whether the string contains three consecutive slash characters. -/
def hasTriple : List Char → Bool
  | [] => false
  | [_] => false
  | [_, _] => false
  | a :: b :: c :: rest => (a == '/' && b == '/' && c == '/') || hasTriple (b :: c :: rest)

/-- Does the needle occur at the start of the haystack. -/
def startsWithL : List Char → List Char → Bool
  | [], _ => true
  | _ :: _, [] => false
  | a :: as, b :: bs => a == b && startsWithL as bs

/-- Python substring containment (the in operator on str). -/
def subOf (needle : List Char) : List Char → Bool
  | [] => startsWithL needle []
  | b :: bs => startsWithL needle (b :: bs) || subOf needle bs

/-- The constant segment nc, the expected netCDF extension token. -/
def ncSeg : List Char :=
  str "nc"

/-- Translation of get_pathspp (core.py lines 84-118): the filename is the
dot-join of ppname, time, add and nc; the path is the slash-join of pp,
ppname, out, local and the filename; finally doubled slashes are collapsed by
a single replace pass. -/
def get_pathspp (pp ppname out localDir time add : List Char) : List Char :=
  let filename := joinSep '.' [ppname, time, add, ncSeg]
  let path := joinSep '/' [pp, ppname, out, localDir, filename]
  replaceDS path

/-- Translation of get_pathstatic (core.py lines 120-141): filename is the
dot-join of ppname, static and nc; the path is the slash-join of pp, ppname
and that filename (no doubled-slash collapsing here, unlike get_pathspp). -/
def get_pathstatic (pp ppname : List Char) : List Char :=
  let staticName := joinSep '.' [ppname, str "static", ncSeg]
  joinSep '/' [pp, ppname, staticName]

/-- The last space-delimited token of a line, as computed by the Python
expression output.split(chr 32)[-1] in query_ondisk. -/
def lastTok (l : List Char) : List Char :=
  (splitOn ' ' l).getLastD []

/-- Whether a dmls output line carries one of the two recognized on-disk
status markers, REG or DUL in parentheses (core.py line 199). -/
def hasMarker (l : List Char) : Bool :=
  subOf (str "(REG)") l || subOf (str "(DUL)") l

/-- Python dict assignment on an association list: an existing key keeps its
position and gets the new value, a new key is appended at the end. -/
def dinsert (k : List Char) (v : Bool) : List (List Char × Bool) → List (List Char × Bool)
  | [] => [(k, v)]
  | (k', v') :: rest => if k' = k then (k', v) :: rest else (k', v') :: dinsert k v rest

/-- Association-list lookup on the dictionary built by query_ondisk. -/
def lookupD (d : List (List Char × Bool)) (k : List Char) : Option Bool :=
  match d with
  | [] => none
  | (k', v) :: rest => if k' = k then some v else lookupD rest k

/-- The lines of the command output that query_ondisk iterates over:
Python splits the raw output on newlines and drops the final element of the
split (the empty artifact after a trailing newline); on empty output this
yields no lines at all (core.py lines 196-198). -/
def procLines (out : List Char) : List (List Char) :=
  (splitOn '\n' out).dropLast

/-- Translation of query_ondisk (core.py lines 190-203).  The argument is the
raw text output of the residency-listing command (dmls -l) for the queried
path; the result is the dictionary mapping each processed line's last
space-delimited token to its residency classification. -/
def query_ondisk (out : List Char) : List (List Char × Bool) :=
  (procLines out).foldl (fun d line => dinsert (lastTok line) (hasMarker line) d) []

/-- Translation of query_all_ondisk (core.py lines 205-210).  dmlsOut is the
environment giving the dmls -l output for each queried path argument; the
function conjoins, over all supplied path groups, the conjunction of all
values of the residency dictionary for that group. -/
def query_all_ondisk (dmlsOut : List Char → List Char) (paths : List (List Char)) : Bool :=
  paths.all (fun p => ((query_ondisk (dmlsOut p)).map Prod.snd).all (fun b => b))

/-- Observable events of the open_frompp workflow: glob expansion of a
pattern, the dmget shell command over a path list, one evaluation of
query_all_ondisk with its result, a one-second sleep, the mirror_path call,
and the final hand-off of a path list to xarray.open_mfdataset. -/
inductive Ev where
  | glob (pattern : List Char)
  | dmgetCmd (paths : List (List Char))
  | poll (result : Bool)
  | sleep
  | mirrorRun (paths : List (List Char)) (prefx : List Char)
  | openMf (paths : List (List Char))
deriving DecidableEq

/-- Python exceptions raised by the modelled functions. -/
inductive PyErr where
  | bothModes
  | typeError
  | noMatch
  | ambiguous (l : List (List Char))
  | indexError
deriving DecidableEq

/-- Outcome of an open_frompp run: the path list handed to the dataset
opener, an exception, or fuel exhaustion of an unbounded polling loop. -/
inductive Outcome where
  | ok (paths : List (List Char))
  | err (e : PyErr)
  | hang
deriving DecidableEq

/-- The add argument of open_frompp: Python accepts a single string or a
list of strings (core.py lines 61-67). -/
inductive AddArg where
  | one (s : List Char)
  | many (l : List (List Char))

/-- The glob patterns built by open_frompp before expansion: one pattern for
a single add string, one per element for a list (core.py lines 61-67). -/
def globPatterns (pp ppname out localDir time : List Char) : AddArg → List (List Char)
  | .one a => [get_pathspp pp ppname out localDir time a]
  | .many l => l.map (fun v => get_pathspp pp ppname out localDir time v)

/-- The resolved path list of open_frompp: the concatenation of the glob
expansions (environment globE) of all patterns (core.py lines 61-67). -/
def resolve_paths (globE : List Char → List (List Char))
    (pp ppname out localDir time : List Char) (add : AddArg) : List (List Char) :=
  ((globPatterns pp ppname out localDir time add).map globE).flatten

/-- The dmget polling loop of open_frompp (core.py lines 73-74): evaluate the
poll at the current tick, stop after a true evaluation, otherwise sleep one
second and re-evaluate at the next tick.  The loop is unbounded in the
source; fuel only truncates the model, and exhaustion is reported as none. -/
def dmgetLoop (poll : Nat → Bool) : Nat → Nat → Option (List Ev)
  | _, 0 => none
  | k, fuel + 1 =>
      if poll k then some [Ev.poll true]
      else (dmgetLoop poll (k + 1) fuel).map (fun t => Ev.poll false :: Ev.sleep :: t)

/-- The parts of mirror_path (core.py lines 212-240) that do not depend on
waiting: the shared destination directory derived from the first path, the
filtered list of paths still needing a copy, the text of the bulk gcp
command, and the list of collapsed destination paths that the function polls
for and finally returns.  isfileE is the os.path.isfile environment at the
time the filter runs. -/
structure MirrorParts where
  destination : List Char
  path_to_copy : List (List Char)
  cmd : List Char
  ret : List (List Char)
deriving DecidableEq

/-- Translation of the list branch of mirror_path (core.py lines 220-240). -/
def mirror_path_parts (isfileE : List Char → Bool) (prefx : List Char)
    (path : List (List Char)) : MirrorParts :=
  let destination := joinSep '/' ((splitOn '/' (path.headD [])).dropLast)
  let path_to_copy := path.filter
    (fun p => !(isfileE (prefx ++ p)) && !(isfileE (prefx ++ p ++ str ".gcp")))
  let cmd := str "gcp --debug " ++ joinSep ' ' path ++ [' '] ++ prefx ++ destination ++ ['/']
  let ret := path.map (fun p => replaceDS (prefx ++ p))
  ⟨destination, path_to_copy, cmd, ret⟩

/-- Translation of open_frompp (core.py lines 8-82) as an event trace plus an
outcome.  globE is the glob environment, dmlsAt the dmls -l output per tick
and per path, isfileE the isfile environment used by mirror_path, and fuel
bounds the model of the unbounded dmget polling loop.  The mode check comes
first (line 58), then glob expansion, then (only for a non-empty path list)
the dmget or mirror branch, and finally the hand-off to the dataset opener. -/
def open_frompp_model (globE : List Char → List (List Char))
    (dmlsAt : Nat → List Char → List Char) (_isfileE : List Char → Bool)
    (pp ppname out localDir time : List Char) (add : AddArg)
    (dmget mirror : Bool) (prefx : List Char) (fuel : Nat) : List Ev × Outcome :=
  if dmget && mirror then ([], .err .bothModes)
  else
    let gevs := (globPatterns pp ppname out localDir time add).map Ev.glob
    let paths := resolve_paths globE pp ppname out localDir time add
    if 0 < paths.length then
      if dmget then
        match dmgetLoop (fun k => query_all_ondisk (dmlsAt k) paths) 0 fuel with
        | none => (gevs ++ [Ev.dmgetCmd paths], .hang)
        | some t => (gevs ++ Ev.dmgetCmd paths :: t ++ [Ev.openMf paths], .ok paths)
      else if mirror then
        let newPaths := paths.map (fun p => prefx ++ p)
        (gevs ++ [Ev.mirrorRun paths prefx, Ev.openMf newPaths], .ok newPaths)
      else (gevs ++ [Ev.openMf paths], .ok paths)
    else (gevs ++ [Ev.openMf paths], .ok paths)

/-- Translation of find_variable (core.py lines 303-323), with the catalog
built by get_allvars abstracted as an association list from ppname to its
variable list.  The found flag is set exactly when at least one component
contains the variable; otherwise the Python function prints a message and
implicitly returns None, modelled as none. -/
def find_variable (catalog : List (List Char × List (List Char)))
    (vname : List Char) : Option (List (List Char)) :=
  let ppnames := (catalog.filter (fun e => e.2.contains vname)).map (fun e => e.1)
  if ppnames.isEmpty then none else some ppnames

/-- The require and ignore filter of find_unique_variable (core.py lines
336-340): keep the candidates containing every required substring and none
of the ignored substrings. -/
def filterReqIgn (cands require ignore : List (List Char)) : List (List Char) :=
  cands.filter (fun e => require.all (fun r => subOf r e) && !(ignore.any (fun s => subOf s e)))

/-- Successful results of find_unique_variable: a bare component name, or a
list of component names. -/
inductive FuvOk where
  | single (s : List Char)
  | multiple (l : List (List Char))
deriving DecidableEq

deriving instance DecidableEq for Except

/-- Translation of find_unique_variable (core.py lines 325-350).  When
find_variable returns None (variable in no component), the Python list
comprehension iterates over None and raises TypeError.  Otherwise the
filtered list drives the same case split as the source: one match returns
the bare element, zero matches raises the not-found ValueError, several
matches raise the ambiguity ValueError when unique is set and are returned
as a list when it is not. -/
def find_unique_variableE (catalog : List (List Char × List (List Char)))
    (vname : List Char) (require ignore : List (List Char)) (unique : Bool) :
    Except PyErr FuvOk :=
  match find_variable catalog vname with
  | none => .error .typeError
  | some cands =>
      let ll := filterReqIgn cands require ignore
      if ll.length = 1 then .ok (.single (ll.headD []))
      else if ll.length = 0 then .error .noMatch
      else if unique then .error (.ambiguous ll)
      else .ok (.multiple ll)

/-- Translation of the filename loop of get_varnames (core.py lines 278-289),
with the directory listing passed in as the second argument and the variable
names accumulated so far in allvars.  A file is kept when nc occurs among
its dot-delimited segments; the variable name is the second-to-last segment
(Python index -2), and a kept filename with fewer than two segments (a file
literally named nc) raises IndexError exactly as the source does at line
284; names are accumulated skipping those already seen. -/
def get_varnamesGo (allvars : List (List Char)) :
    List (List Char) → Except PyErr (List (List Char))
  | [] => .ok allvars
  | file :: files =>
      let segs := splitOn '.' file
      if segs.contains ncSeg then
        if 2 ≤ segs.length then
          let varname := segs.getD (segs.length - 2) []
          if allvars.contains varname then get_varnamesGo allvars files
          else get_varnamesGo (allvars ++ [varname]) files
        else .error .indexError
      else get_varnamesGo allvars files

/-- Translation of get_varnames (core.py lines 262-289) on a given directory
listing: the filename loop started with an empty accumulator. -/
def get_varnames (files : List (List Char)) : Except PyErr (List (List Char)) :=
  get_varnamesGo [] files

/-- First-seen-order deduplication of a list of names. -/
def dedupFirstSeen (l : List (List Char)) : List (List Char) :=
  l.foldl (fun acc a => if acc.contains a then acc else acc ++ [a]) []

/-- Does the haystack end with the given pattern. -/
def endsWithL (pat l : List Char) : Bool :=
  startsWithL pat.reverse l.reverse

/-- Modelled from the spec wording of listVariables, for comparison with the
source translation get_varnames: keep only filenames with the expected .nc
extension, extract the second-to-last dot-delimited segment, deduplicate in
first-seen order. -/
def get_varnames_specDescribed (files : List (List Char)) : List (List Char) :=
  dedupFirstSeen
    ((files.filter (fun f => endsWithL (str ".nc") f)).map
      (fun f =>
        let segs := splitOn '.' f
        segs.getD (segs.length - 2) []))

/-- The keep-condition of the get_varnames loop: nc occurs among the
dot-delimited segments of the filename (core.py line 281). -/
def keepFile (f : List Char) : Bool :=
  (splitOn '.' f).contains ncSeg

/-- The variable name extracted by get_varnames from a kept filename: the
second-to-last dot-delimited segment (core.py line 284).  Meaningful only
when the split has at least two segments; on shorter splits the program
itself raises IndexError (see get_varnamesGo), so statements use this helper
only under that length condition. -/
def varOf (f : List Char) : List Char :=
  let segs := splitOn '.' f
  segs.getD (segs.length - 2) []

/-- A well-behaved interior path segment: non-empty, free of doubled slashes,
and neither starting nor ending with a slash. -/
def goodSeg (s : List Char) : Prop :=
  s ≠ [] ∧ hasDouble s = false ∧ s.head? ≠ some '/' ∧ s.getLast? ≠ some '/'

/-- Well-formed inputs of get_pathspp: the root pp is free of doubled slashes
(a single trailing slash, the common case, is allowed), the interior
segments ppname, out and local are well-behaved (local may contain single
interior slashes, as in annual/5yr), and the filename pieces time and add
are free of doubled slashes. -/
def wellFormedSpec (pp ppname out localDir time add : List Char) : Prop :=
  hasDouble pp = false ∧ goodSeg ppname ∧ goodSeg out ∧ goodSeg localDir ∧
    hasDouble time = false ∧ hasDouble add = false

instance (s : List Char) : Decidable (goodSeg s) := by
  unfold goodSeg
  infer_instance

instance (pp ppname out localDir time add : List Char) :
    Decidable (wellFormedSpec pp ppname out localDir time add) := by
  unfold wellFormedSpec
  infer_instance

/-! Theorems.  Each claim of the specification review is settled by exactly
one named theorem below; auxiliary lemmas carry their own names. -/

/-- C6: query_all_ondisk returns true if and only if every path in every
supplied group is marked resident in the residency map freshly computed by
query_ondisk for that group; a single non-resident entry anywhere makes it
return false. -/
theorem query_all_ondisk_iff (dmlsOut : List Char → List Char) (paths : List (List Char)) :
    query_all_ondisk dmlsOut paths = true ↔
      ∀ p ∈ paths, ∀ e ∈ query_ondisk (dmlsOut p), e.2 = true := by
  simp [query_all_ondisk, List.all_eq_true]

/-- C8: requesting both migration modes at once makes open_frompp fail with
the configuration error immediately: the event trace is empty, so no glob
expansion, external command, or other I/O happens first. -/
theorem open_frompp_both_modes_error (globE : List Char → List (List Char))
    (dmlsAt : Nat → List Char → List Char) (isfileE : List Char → Bool)
    (pp ppname out localDir time : List Char) (add : AddArg)
    (prefx : List Char) (fuel : Nat) :
    open_frompp_model globE dmlsAt isfileE pp ppname out localDir time add
        true true prefx fuel = ([], .err .bothModes) :=
  rfl

/-- C2: mirror_path computes the filtered list of paths still needing a copy,
yet the bulk gcp command is assembled from the original unfiltered path
list; the command text is identical under any two isfile environments, so
the filtered list has no influence on the copy command's arguments. -/
theorem mirror_path_cmd_unfiltered (isfileE isfileE' : List Char → Bool)
    (prefx : List Char) (path : List (List Char)) (_h : path ≠ []) :
    (mirror_path_parts isfileE prefx path).path_to_copy
        = path.filter
            (fun p => !(isfileE (prefx ++ p)) && !(isfileE (prefx ++ p ++ str ".gcp")))
      ∧ (mirror_path_parts isfileE prefx path).cmd
          = str "gcp --debug " ++ joinSep ' ' path ++ [' '] ++ prefx
              ++ (mirror_path_parts isfileE prefx path).destination ++ ['/']
      ∧ (mirror_path_parts isfileE prefx path).cmd
          = (mirror_path_parts isfileE' prefx path).cmd :=
  ⟨rfl, rfl, rfl⟩

/-- Witness for C2 at a concrete two-path input where the first path is
already mirrored: the filter drops it, the command still names both. -/
theorem mirror_path_cmd_unfiltered_witness :
    (mirror_path_parts (fun q => q == str "/vftmp/u/arch/a.nc") (str "/vftmp/u")
          [str "/arch/a.nc", str "/arch/b.nc"]).path_to_copy
        = [str "/arch/a.nc", str "/arch/b.nc"].filter
            (fun p => !((fun q => q == str "/vftmp/u/arch/a.nc") (str "/vftmp/u" ++ p)) &&
              !((fun q => q == str "/vftmp/u/arch/a.nc") (str "/vftmp/u" ++ p ++ str ".gcp")))
      ∧ (mirror_path_parts (fun q => q == str "/vftmp/u/arch/a.nc") (str "/vftmp/u")
            [str "/arch/a.nc", str "/arch/b.nc"]).cmd
          = str "gcp --debug " ++ joinSep ' ' [str "/arch/a.nc", str "/arch/b.nc"] ++ [' ']
              ++ str "/vftmp/u"
              ++ (mirror_path_parts (fun q => q == str "/vftmp/u/arch/a.nc") (str "/vftmp/u")
                  [str "/arch/a.nc", str "/arch/b.nc"]).destination ++ ['/']
      ∧ (mirror_path_parts (fun q => q == str "/vftmp/u/arch/a.nc") (str "/vftmp/u")
            [str "/arch/a.nc", str "/arch/b.nc"]).cmd
          = (mirror_path_parts (fun _ => false) (str "/vftmp/u")
              [str "/arch/a.nc", str "/arch/b.nc"]).cmd :=
  mirror_path_cmd_unfiltered (fun q => q == str "/vftmp/u/arch/a.nc") (fun _ => false)
    (str "/vftmp/u") [str "/arch/a.nc", str "/arch/b.nc"] (by decide)

/-- C4 counterexample: with unique set to false and a filtered candidate set
of size one, find_unique_variable returns the bare element, not the full
filtered set as a list, refuting the claim that the full filtered set is
returned regardless of its size. -/
theorem find_unique_nonunique_single_counterexample :
    find_unique_variableE [((str "ocean"), [str "tas"])] (str "tas") [] [] false
        = .ok (.single (str "ocean"))
      ∧ Except.ok (ε := PyErr) (FuvOk.single (str "ocean"))
          ≠ .ok (.multiple [str "ocean"]) := by
  constructor
  · decide
  · decide

/-- C4 amended: given the candidate list produced by find_variable, a
filtered set of size one returns the bare element under either uniqueness
mode; an empty filtered set fails with the not-found error under either
mode; a filtered set of several elements fails with the ambiguity error when
unique is set and is returned as the full list when it is not. -/
theorem find_unique_variable_cases (catalog : List (List Char × List (List Char)))
    (vname : List Char) (require ignore cands : List (List Char))
    (hfv : find_variable catalog vname = some cands) :
    (∀ x, filterReqIgn cands require ignore = [x] →
        ∀ unique, find_unique_variableE catalog vname require ignore unique
          = .ok (.single x))
    ∧ (filterReqIgn cands require ignore = [] →
        ∀ unique, find_unique_variableE catalog vname require ignore unique
          = .error .noMatch)
    ∧ (1 < (filterReqIgn cands require ignore).length →
        find_unique_variableE catalog vname require ignore true
            = .error (.ambiguous (filterReqIgn cands require ignore))
          ∧ find_unique_variableE catalog vname require ignore false
            = .ok (.multiple (filterReqIgn cands require ignore))) := by
  refine ⟨?_, ?_, ?_⟩
  · intro x hx unique
    simp [find_unique_variableE, hfv, hx]
  · intro h0 unique
    simp [find_unique_variableE, hfv, h0]
  · intro h2
    have h1 : (filterReqIgn cands require ignore).length ≠ 1 := by omega
    have h0 : (filterReqIgn cands require ignore).length ≠ 0 := by omega
    constructor
    · simp [find_unique_variableE, hfv, h1, h0]
    · simp [find_unique_variableE, hfv, h1, h0]

/-- Witness for C4 amended, at a catalog where two components carry the
variable and one of them is excluded by the ignore filter. -/
theorem find_unique_variable_cases_witness :
    find_unique_variableE
        [((str "ocean"), [str "thetao"]), ((str "ocean_1x1deg"), [str "thetao"])]
        (str "thetao") [] [str "1x1deg"] true
      = .ok (.single (str "ocean")) :=
  ((find_unique_variable_cases
      [((str "ocean"), [str "thetao"]), ((str "ocean_1x1deg"), [str "thetao"])]
      (str "thetao") [] [str "1x1deg"] [str "ocean", str "ocean_1x1deg"]
      (by decide)).1 (str "ocean") (by decide)) true

/-- C5 counterexample: a unique lookup of a variable found in no component
fails with the TypeError coming from iterating over the absent result of
find_variable, which is not the designated not-found error. -/
theorem find_unique_missing_counterexample :
    find_unique_variableE [((str "ocean"), [str "thetao"])] (str "tas") [] [] true
        = .error .typeError
      ∧ PyErr.typeError ≠ PyErr.noMatch := by
  constructor
  · decide
  · decide

/-- C5 amended: whenever the looked-up variable appears in no component of
the catalog, find_variable yields its absent result and find_unique_variable
fails with the TypeError raised by iterating over it, regardless of the
require, ignore and unique arguments; the designated not-found error is
reserved for the case where candidates exist but filtering removes all. -/
theorem find_unique_missing_type_error (catalog : List (List Char × List (List Char)))
    (vname : List Char) (require ignore : List (List Char)) (unique : Bool)
    (h : ∀ e ∈ catalog, vname ∉ e.2) :
    find_unique_variableE catalog vname require ignore unique = .error .typeError := by
  have hfv : find_variable catalog vname = none := by
    simp only [find_variable, List.isEmpty_iff, List.map_eq_nil_iff, List.filter_eq_nil_iff]
    rw [if_pos]
    intro a ha
    simpa using h a ha
  simp [find_unique_variableE, hfv]

/-- Witness for C5 amended at a concrete catalog missing the variable. -/
theorem find_unique_missing_type_error_witness :
    find_unique_variableE [((str "ocean"), [str "thetao"])] (str "tas")
        [str "month"] [] false = .error .typeError :=
  find_unique_missing_type_error [((str "ocean"), [str "thetao"])] (str "tas")
    [str "month"] [] false (by decide)

/-- On listings whose kept filenames all have at least two dot-delimited
segments, the get_varnames loop succeeds and equals the deduplication fold
over the kept-and-mapped listing, for any starting accumulator. -/
theorem get_varnamesGo_ok (files : List (List Char)) : ∀ acc : List (List Char),
    (∀ f ∈ files, keepFile f = true → 2 ≤ (splitOn '.' f).length) →
    get_varnamesGo acc files
      = .ok (((files.filter keepFile).map varOf).foldl
          (fun acc a => if acc.contains a then acc else acc ++ [a]) acc) := by
  induction files with
  | nil => intro acc _; rfl
  | cons f fs ih =>
      intro acc hlen
      have hlen' : ∀ g ∈ fs, keepFile g = true → 2 ≤ (splitOn '.' g).length :=
        fun g hg => hlen g (List.mem_cons_of_mem f hg)
      have hv : (splitOn '.' f).getD ((splitOn '.' f).length - 2) [] = varOf f := rfl
      by_cases hk : keepFile f = true
      · have h2 : 2 ≤ (splitOn '.' f).length := hlen f (List.mem_cons_self f fs) hk
        have hk' : (splitOn '.' f).contains ncSeg = true := hk
        rw [List.filter_cons, if_pos hk, List.map_cons, List.foldl_cons]
        simp only [get_varnamesGo]
        rw [if_pos hk', if_pos h2, hv]
        by_cases hc : acc.contains (varOf f) = true
        · rw [if_pos hc, if_pos hc]
          exact ih acc hlen'
        · rw [if_neg hc, if_neg hc]
          exact ih (acc ++ [varOf f]) hlen'
      · have hk' : ¬ (splitOn '.' f).contains ncSeg = true := hk
        rw [List.filter_cons, if_neg hk]
        simp only [get_varnamesGo]
        rw [if_neg hk']
        exact ih acc hlen'

/-- C9 counterexample: a filename in which nc is an interior dot-segment but
not the extension is kept by get_varnames (yielding the segment before the
last one), whereas the specified behavior of keeping only filenames with the
.nc extension would drop it. -/
theorem get_varnames_extension_counterexample :
    get_varnames [str "tas.nc.extra"] = .ok [str "nc"]
      ∧ get_varnames_specDescribed [str "tas.nc.extra"] = []
      ∧ get_varnames [str "tas.nc.extra"]
          ≠ .ok (get_varnames_specDescribed [str "tas.nc.extra"]) := by
  refine ⟨by decide, by decide, by decide⟩

/-- C9 amended: get_varnames keeps the filenames in which nc occurs as a
dot-delimited segment (not necessarily as the final extension); when every
kept filename has at least two dot-delimited segments it extracts the
second-to-last segment of each kept filename and deduplicates preserving
first-seen order, returning tas then pr on the example file list; a kept
one-segment filename, a file literally named nc, raises IndexError. -/
theorem get_varnames_characterization :
    (∀ files, (∀ f ∈ files, keepFile f = true → 2 ≤ (splitOn '.' f).length) →
        get_varnames files = .ok (dedupFirstSeen ((files.filter keepFile).map varOf)))
    ∧ get_varnames [str "atmos.20000101.tas.nc", str "atmos.20000101.tas.nc",
        str "atmos.20000101.pr.nc"] = .ok [str "tas", str "pr"]
    ∧ get_varnames [str "nc"] = .error .indexError := by
  refine ⟨?_, by decide, by decide⟩
  intro files h
  exact get_varnamesGo_ok files [] h

/-- Witness for C9 amended at a concrete listing containing a skipped
extension-free file, whose kept filenames all have at least two
dot-delimited segments. -/
theorem get_varnames_characterization_witness :
    get_varnames [str "atmos.2000.tas.nc", str "README", str "atmos.2000.pr.nc"]
      = .ok (dedupFirstSeen (([str "atmos.2000.tas.nc", str "README",
          str "atmos.2000.pr.nc"].filter keepFile).map varOf)) :=
  get_varnames_characterization.1
    [str "atmos.2000.tas.nc", str "README", str "atmos.2000.pr.nc"] (by decide)

/-- Inserting a fresh key into the Python-style dictionary appends it. -/
theorem dinsert_notmem (k : List Char) (v : Bool) :
    ∀ d : List (List Char × Bool), k ∉ d.map Prod.fst → dinsert k v d = d ++ [(k, v)] := by
  intro d
  induction d with
  | nil => intro _; rfl
  | cons e rest ih =>
      intro hk
      simp only [List.map_cons, List.mem_cons] at hk
      push_neg at hk
      simp only [dinsert]
      rw [if_neg (fun he => hk.1 he.symm), ih hk.2]
      rfl

/-- When the incoming line keys are fresh and pairwise distinct, the
dictionary fold of query_ondisk reduces to appending one entry per line. -/
theorem query_ondisk_fold (lines : List (List Char)) :
    ∀ acc : List (List Char × Bool),
    (acc.map Prod.fst ++ lines.map lastTok).Nodup →
    lines.foldl (fun d line => dinsert (lastTok line) (hasMarker line) d) acc
      = acc ++ lines.map (fun l => (lastTok l, hasMarker l)) := by
  induction lines with
  | nil => intro acc _; simp
  | cons l ls ih =>
      intro acc hnd
      have hfresh : lastTok l ∉ acc.map Prod.fst := by
        intro hmem
        rcases List.nodup_append.mp hnd with ⟨_, _, hdisj⟩
        exact hdisj hmem (by simp)
      simp only [List.foldl_cons, dinsert_notmem _ _ acc hfresh]
      have hnd' : ((acc ++ [(lastTok l, hasMarker l)]).map Prod.fst ++ ls.map lastTok).Nodup := by
        simpa [List.append_assoc] using hnd
      rw [ih _ hnd']
      simp

/-- Looking up a line's key in the appended-entry dictionary returns that
line's classification, provided the line keys are pairwise distinct. -/
theorem query_ondisk_lookup (line : List Char) :
    ∀ L : List (List Char), (L.map lastTok).Nodup → line ∈ L →
    lookupD (L.map (fun l => (lastTok l, hasMarker l))) (lastTok line)
      = some (hasMarker line) := by
  intro L
  induction L with
  | nil => intro _ h; cases h
  | cons a L' ih =>
      intro hnd hmem
      simp only [List.map_cons, lookupD]
      by_cases heq : lastTok a = lastTok line
      · rw [if_pos heq]
        rcases List.mem_cons.mp hmem with rfl | hmem'
        · rfl
        · exfalso
          have : lastTok line ∈ L'.map lastTok := List.mem_map_of_mem lastTok hmem'
          rw [← heq] at this
          exact (List.nodup_cons.mp (by simpa using hnd)).1 this
      · rw [if_neg heq]
        rcases List.mem_cons.mp hmem with rfl | hmem'
        · exact absurd rfl heq
        · exact ih (List.nodup_cons.mp (by simpa using hnd)).2 hmem'

/-- C7: query_ondisk maps the last space-delimited token of each processed
output line to true exactly when the line carries one of the two recognized
on-disk markers, REG or DUL in parentheses, and to false otherwise (stated
for outputs whose lines have pairwise-distinct path tokens, so the
dictionary holds one entry per line); empty command output yields the empty
map. -/
theorem query_ondisk_classifies (out : List Char) :
    (out = [] → query_ondisk out = [])
    ∧ ((List.map lastTok (procLines out)).Nodup →
        ∀ line ∈ procLines out,
          lookupD (query_ondisk out) (lastTok line) = some (hasMarker line)) := by
  constructor
  · rintro rfl
    rfl
  · intro hnd line hline
    rw [query_ondisk, query_ondisk_fold _ [] (by simpa using hnd)]
    simpa using query_ondisk_lookup line _ hnd hline

/-- Witness for C7 on a concrete two-line dmls output: the line with the REG
marker is classified resident, the line with the OFL marker is not. -/
theorem query_ondisk_classifies_witness :
    lookupD (query_ondisk (str "x u (REG) /a/f1\ny u (OFL) /a/f2\n"))
          (lastTok (str "y u (OFL) /a/f2")) = some (hasMarker (str "y u (OFL) /a/f2"))
      ∧ hasMarker (str "y u (OFL) /a/f2") = false := by
  constructor
  · exact (query_ondisk_classifies (str "x u (REG) /a/f1\ny u (OFL) /a/f2\n")).2
      (by decide) (str "y u (OFL) /a/f2") (by decide)
  · decide

/-- When every poll evaluates false, the dmget loop never terminates: no
amount of fuel produces a trace. -/
theorem dmgetLoop_none (poll : Nat → Bool) (h : ∀ m, poll m = false) :
    ∀ fuel k, dmgetLoop poll k fuel = none := by
  intro fuel
  induction fuel with
  | zero => intro k; rfl
  | succ f ih =>
      intro k
      simp [dmgetLoop, h k, ih (k + 1)]

/-- When the first true poll is the n-th one, the dmget loop with more than n
units of fuel produces exactly n false-poll-then-sleep pairs followed by the
final true poll. -/
theorem dmgetLoop_some (poll : Nat → Bool) :
    ∀ (n k fuel : Nat), (∀ m, m < n → poll (k + m) = false) → poll (k + n) = true →
    n < fuel →
    dmgetLoop poll k fuel
      = some ((List.replicate n [Ev.poll false, Ev.sleep]).flatten ++ [Ev.poll true]) := by
  intro n
  induction n with
  | zero =>
      intro k fuel _ htrue hfuel
      match fuel, hfuel with
      | f + 1, _ =>
        simp only [dmgetLoop]
        rw [if_pos (by simpa using htrue)]
        simp
  | succ n ih =>
      intro k fuel hfalse htrue hfuel
      match fuel, hfuel with
      | f + 1, hf =>
        have hk : poll k = false := by simpa using hfalse 0 (Nat.succ_pos n)
        simp only [dmgetLoop, hk, Bool.false_eq_true, if_false]
        rw [ih (k + 1) f
          (fun m hm => by
            have := hfalse (m + 1) (Nat.succ_lt_succ hm)
            simpa [Nat.add_assoc, Nat.add_comm 1 m] using this)
          (by simpa [Nat.add_assoc, Nat.add_comm 1 n] using htrue)
          (Nat.lt_of_succ_lt_succ hf)]
        simp [List.replicate_succ]

/-- C1: for every non-empty resolved path list, open_frompp in dmget mode
issues the dmget command once, after glob expansion and before any
residency poll; it then evaluates query_all_ondisk on those paths once per
tick with a sleep between consecutive evaluations, hands the paths to the
dataset opener right after the first true evaluation, and loops without any
upper bound: if every evaluation is false, no amount of fuel lets the model
return. -/
theorem open_frompp_dmget_polls (globE : List Char → List (List Char))
    (dmlsAt : Nat → List Char → List Char) (isfileE : List Char → Bool)
    (pp ppname out localDir time : List Char) (add : AddArg) (prefx : List Char)
    (hne : resolve_paths globE pp ppname out localDir time add ≠ []) :
    (∀ n fuel,
        (∀ m, m < n →
          query_all_ondisk (dmlsAt m) (resolve_paths globE pp ppname out localDir time add)
            = false) →
        query_all_ondisk (dmlsAt n) (resolve_paths globE pp ppname out localDir time add)
          = true →
        n < fuel →
        open_frompp_model globE dmlsAt isfileE pp ppname out localDir time add
            true false prefx fuel
          = ((globPatterns pp ppname out localDir time add).map Ev.glob
              ++ Ev.dmgetCmd (resolve_paths globE pp ppname out localDir time add)
                :: ((List.replicate n [Ev.poll false, Ev.sleep]).flatten ++ [Ev.poll true])
              ++ [Ev.openMf (resolve_paths globE pp ppname out localDir time add)],
             .ok (resolve_paths globE pp ppname out localDir time add)))
    ∧ ((∀ k, query_all_ondisk (dmlsAt k)
          (resolve_paths globE pp ppname out localDir time add) = false) →
        ∀ fuel,
          (open_frompp_model globE dmlsAt isfileE pp ppname out localDir time add
            true false prefx fuel).2 = .hang) := by
  have hlen : 0 < (resolve_paths globE pp ppname out localDir time add).length :=
    List.length_pos.mpr hne
  constructor
  · intro n fuel hfalse htrue hfuel
    rw [open_frompp_model]
    rw [if_neg (by simp)]
    simp only [hlen, if_true, if_pos]
    rw [dmgetLoop_some _ n 0 fuel (fun m hm => by simpa using hfalse m hm)
      (by simpa using htrue) hfuel]
  · intro hfalse fuel
    rw [open_frompp_model]
    rw [if_neg (by simp)]
    simp only [hlen, if_true, if_pos]
    rw [dmgetLoop_none _ (fun m => hfalse m) fuel 0]

/-- Witness for C1: a single resolved path whose dmls output shows the OFL
marker for the first two ticks and the REG marker from the third on; the
loop polls false twice, sleeping in between, and opens the path after the
third poll. -/
theorem open_frompp_dmget_polls_witness :
    open_frompp_model (fun _ => [str "/arch/a.nc"])
        (fun k _ => if k < 2 then str "x u (OFL) /arch/a.nc\n" else str "x u (REG) /arch/a.nc\n")
        (fun _ => false) (str "/pp") (str "atmos") (str "ts") (str "annual/5yr")
        (str "2000") (.one (str "tas")) true false (str "/v") 4
      = ((globPatterns (str "/pp") (str "atmos") (str "ts") (str "annual/5yr")
            (str "2000") (.one (str "tas"))).map Ev.glob
          ++ Ev.dmgetCmd [str "/arch/a.nc"]
            :: ((List.replicate 2 [Ev.poll false, Ev.sleep]).flatten ++ [Ev.poll true])
          ++ [Ev.openMf [str "/arch/a.nc"]],
         .ok [str "/arch/a.nc"]) := by
  have h := (open_frompp_dmget_polls (fun _ => [str "/arch/a.nc"])
      (fun k _ => if k < 2 then str "x u (OFL) /arch/a.nc\n" else str "x u (REG) /arch/a.nc\n")
      (fun _ => false) (str "/pp") (str "atmos") (str "ts") (str "annual/5yr")
      (str "2000") (.one (str "tas")) (str "/v") (by decide)).1 2 4
      (by decide) (by decide) (by decide)
  simpa using h

/-- C10: in mirror mode open_frompp opens the concatenations of the prefix
with each original archive path verbatim, while mirror_path returns (and
polled for) the destination paths with doubled slashes collapsed; the final
conjunct exhibits a prefix-and-path pair on which the two differ, so the
opened paths can differ from the paths whose existence mirror_path
verified. -/
theorem open_frompp_mirror_paths (globE : List Char → List (List Char))
    (dmlsAt : Nat → List Char → List Char) (isfileE : List Char → Bool)
    (pp ppname out localDir time : List Char) (add : AddArg) (prefx : List Char)
    (fuel : Nat)
    (hne : resolve_paths globE pp ppname out localDir time add ≠ []) :
    ((open_frompp_model globE dmlsAt isfileE pp ppname out localDir time add
          false true prefx fuel).2
        = .ok ((resolve_paths globE pp ppname out localDir time add).map
            (fun p => prefx ++ p)))
    ∧ ((mirror_path_parts isfileE prefx
          (resolve_paths globE pp ppname out localDir time add)).ret
        = (resolve_paths globE pp ppname out localDir time add).map
            (fun p => replaceDS (prefx ++ p)))
    ∧ str "/v/" ++ str "/b.nc" ≠ replaceDS (str "/v/" ++ str "/b.nc") := by
  have hlen : 0 < (resolve_paths globE pp ppname out localDir time add).length :=
    List.length_pos.mpr hne
  refine ⟨?_, rfl, by decide⟩
  rw [open_frompp_model]
  rw [if_neg (by simp)]
  simp [hlen]

/-- Witness for C10: a resolved archive path opened under a slash-terminated
prefix keeps its doubled slash while the mirrored path had it collapsed. -/
theorem open_frompp_mirror_paths_witness :
    ((open_frompp_model (fun _ => [str "/b.nc"]) (fun _ _ => []) (fun _ => false)
          (str "/pp") (str "atmos") (str "ts") (str "annual/5yr") (str "2000")
          (.one (str "tas")) false true (str "/v/") 1).2
        = .ok [str "/v/" ++ str "/b.nc"])
      ∧ (mirror_path_parts (fun _ => false) (str "/v/") [str "/b.nc"]).ret
          = [replaceDS (str "/v/" ++ str "/b.nc")] := by
  have h := open_frompp_mirror_paths (fun _ => [str "/b.nc"]) (fun _ _ => [])
    (fun _ => false) (str "/pp") (str "atmos") (str "ts") (str "annual/5yr")
    (str "2000") (.one (str "tas")) (str "/v/") 1 (by decide)
  exact ⟨by simpa using h.1, by simpa using h.2.1⟩

/-- Unfolding equation of hasTriple at three exposed characters. -/
theorem hasTriple_cons3 (a b c : Char) (t : List Char) :
    hasTriple (a :: b :: c :: t)
      = ((a == '/' && (b == '/' && c == '/')) || hasTriple (b :: c :: t)) := by
  simp only [hasTriple, Bool.and_assoc]

/-- Removing the head preserves freedom from doubled slashes. -/
theorem hasDouble_tail (a : Char) (l : List Char) (h : hasDouble (a :: l) = false) :
    hasDouble l = false := by
  cases l with
  | nil => rfl
  | cons b t =>
      rw [show hasDouble (a :: b :: t) = ((a == '/' && b == '/') || hasDouble (b :: t)) from rfl]
        at h
      exact (Bool.or_eq_false_iff.mp h).2

/-- Removing the head preserves freedom from tripled slashes. -/
theorem hasTriple_tail (a : Char) (l : List Char) (h : hasTriple (a :: l) = false) :
    hasTriple l = false := by
  cases l with
  | nil => rfl
  | cons b t =>
      cases t with
      | nil => rfl
      | cons c t' =>
          rw [hasTriple_cons3] at h
          exact (Bool.or_eq_false_iff.mp h).2

/-- A string without doubled slashes has no tripled slash either. -/
theorem noDouble_noTriple (l : List Char) (h : hasDouble l = false) : hasTriple l = false := by
  induction l with
  | nil => rfl
  | cons a l ih =>
      cases l with
      | nil => rfl
      | cons b t =>
          cases t with
          | nil => rfl
          | cons c t' =>
              rw [show hasDouble (a :: b :: c :: t')
                  = ((a == '/' && b == '/') || hasDouble (b :: c :: t')) from rfl] at h
              obtain ⟨hw, htl⟩ := Bool.or_eq_false_iff.mp h
              rw [hasTriple_cons3]
              rw [Bool.or_eq_false_iff]
              refine ⟨?_, ih htl⟩
              rcases Bool.and_eq_false_iff.mp hw with hx | hx
              · rw [Bool.and_eq_false_iff]
                exact Or.inl hx
              · rw [Bool.and_eq_false_iff]
                right
                rw [Bool.and_eq_false_iff]
                exact Or.inl hx

/-- The replacement pass never changes the first character. -/
theorem replaceDS_cons (a : Char) (l : List Char) : ∃ t, replaceDS (a :: l) = a :: t := by
  cases l with
  | nil => exact ⟨[], rfl⟩
  | cons b rest =>
      by_cases hab : a = '/' ∧ b = '/'
      · refine ⟨replaceDS rest, ?_⟩
        rw [show replaceDS (a :: b :: rest)
            = (if a = '/' ∧ b = '/' then '/' :: replaceDS rest
               else a :: replaceDS (b :: rest)) from rfl]
        rw [if_pos hab, hab.1]
      · refine ⟨replaceDS (b :: rest), ?_⟩
        rw [show replaceDS (a :: b :: rest)
            = (if a = '/' ∧ b = '/' then '/' :: replaceDS rest
               else a :: replaceDS (b :: rest)) from rfl]
        rw [if_neg hab]

/-- Consing onto a double-free string stays double-free when the new head
and the old head are not both slashes. -/
theorem hasDouble_cons (c : Char) (t : List Char) (h1 : hasDouble t = false)
    (h2 : c ≠ '/' ∨ t.head? ≠ some '/') : hasDouble (c :: t) = false := by
  cases t with
  | nil => rfl
  | cons b t' =>
      rw [show hasDouble (c :: b :: t') = ((c == '/' && b == '/') || hasDouble (b :: t')) from rfl]
      rw [Bool.or_eq_false_iff]
      refine ⟨?_, h1⟩
      rw [Bool.and_eq_false_iff]
      rcases h2 with hc | hb
      · exact Or.inl (beq_eq_false_iff_ne.mpr hc)
      · refine Or.inr (beq_eq_false_iff_ne.mpr ?_)
        intro hbe
        exact hb (by rw [List.head?_cons, hbe])

/-- Appending two double-free strings stays double-free when the junction
does not put two slashes side by side. -/
theorem hasDouble_append (a : List Char) : ∀ b : List Char, hasDouble a = false →
    hasDouble b = false → (a.getLast? ≠ some '/' ∨ b.head? ≠ some '/') →
    hasDouble (a ++ b) = false := by
  induction a with
  | nil =>
      intro b _ hb _
      simpa using hb
  | cons x a' ih =>
      intro b ha hb hj
      rw [List.cons_append]
      cases a' with
      | nil =>
          rw [List.nil_append]
          apply hasDouble_cons x b hb
          rcases hj with hl | hr
          · refine Or.inl ?_
            intro hx
            exact hl (by rw [hx]; rfl)
          · exact Or.inr hr
      | cons y a'' =>
          apply hasDouble_cons
          · apply ih b (hasDouble_tail x _ ha) hb
            rcases hj with hl | hr
            · refine Or.inl ?_
              rw [List.getLast?_cons_cons] at hl
              exact hl
            · exact Or.inr hr
          · rw [show hasDouble (x :: y :: a'')
                = ((x == '/' && y == '/') || hasDouble (y :: a'')) from rfl] at ha
            rcases Bool.and_eq_false_iff.mp (Bool.or_eq_false_iff.mp ha).1 with hx | hy
            · exact Or.inl (beq_eq_false_iff_ne.mp hx)
            · refine Or.inr ?_
              rw [List.cons_append, List.head?_cons]
              intro hsome
              exact (beq_eq_false_iff_ne.mp hy) (Option.some.inj hsome)

/-- Prepending a double-free root and one separator to a triple-free string
whose head is not a slash keeps the whole string triple-free. -/
theorem hasTriple_append_left (pp : List Char) (x : Char) (rest : List Char)
    (hpp : hasDouble pp = false) (hx : x ≠ '/') (hr : hasTriple (x :: rest) = false) :
    hasTriple (pp ++ '/' :: x :: rest) = false := by
  induction pp with
  | nil =>
      rw [List.nil_append]
      cases rest with
      | nil => rfl
      | cons r t =>
          rw [hasTriple_cons3]
          rw [Bool.or_eq_false_iff]
          refine ⟨?_, hr⟩
          rw [Bool.and_eq_false_iff]
          right
          rw [Bool.and_eq_false_iff]
          exact Or.inl (beq_eq_false_iff_ne.mpr hx)
  | cons c pp' ih =>
      rw [List.cons_append]
      have hM : ∃ m M', pp' ++ '/' :: x :: rest = m :: M' := by
        cases pp' with
        | nil => exact ⟨'/', x :: rest, rfl⟩
        | cons d pp'' => exact ⟨d, pp'' ++ '/' :: x :: rest, rfl⟩
      obtain ⟨m, M', hM⟩ := hM
      rw [hM]
      cases M' with
      | nil =>
          exfalso
          have hlen := congrArg List.length hM
          simp [List.length_append] at hlen
          omega
      | cons m2 M'' =>
          rw [hasTriple_cons3]
          rw [Bool.or_eq_false_iff]
          constructor
          · cases pp' with
            | nil =>
                injection hM with h1 h2
                injection h2 with h2a h2b
                rw [Bool.and_eq_false_iff]
                right
                rw [Bool.and_eq_false_iff]
                right
                rw [← h2a]
                exact beq_eq_false_iff_ne.mpr hx
            | cons d pp'' =>
                injection hM with h1 h2
                rw [show hasDouble (c :: d :: pp'')
                    = ((c == '/' && d == '/') || hasDouble (d :: pp'')) from rfl] at hpp
                rcases Bool.and_eq_false_iff.mp (Bool.or_eq_false_iff.mp hpp).1 with hc | hd
                · rw [Bool.and_eq_false_iff]
                  exact Or.inl hc
                · rw [Bool.and_eq_false_iff]
                  right
                  rw [Bool.and_eq_false_iff]
                  left
                  rw [← h1]
                  exact hd
          · rw [← hM]
            exact ih (hasDouble_tail c pp' hpp)

/-- A triple-free string becomes double-free after the replacement pass
(fuel-indexed form matching the two-character steps of the recursion). -/
theorem replaceDS_noDouble_fuel : ∀ (fuel : Nat) (l : List Char), l.length ≤ fuel →
    hasTriple l = false → hasDouble (replaceDS l) = false := by
  intro fuel
  induction fuel with
  | zero =>
      intro l hl _
      rw [List.length_eq_zero.mp (Nat.le_zero.mp hl)]
      rfl
  | succ f ih =>
      intro l hl h
      cases l with
      | nil => rfl
      | cons a l1 =>
          cases l1 with
          | nil => rfl
          | cons b rest =>
              by_cases hab : a = '/' ∧ b = '/'
              · rw [show replaceDS (a :: b :: rest)
                    = (if a = '/' ∧ b = '/' then '/' :: replaceDS rest
                       else a :: replaceDS (b :: rest)) from rfl]
                rw [if_pos hab]
                obtain ⟨ha, hb⟩ := hab
                subst ha
                subst hb
                cases rest with
                | nil => rfl
                | cons c rest' =>
                    rw [hasTriple_cons3] at h
                    obtain ⟨hw, htl⟩ := Bool.or_eq_false_iff.mp h
                    have hc : c ≠ '/' := by
                      rcases Bool.and_eq_false_iff.mp hw with h1 | h1
                      · exact absurd h1 (by simp)
                      · rcases Bool.and_eq_false_iff.mp h1 with h2 | h2
                        · exact absurd h2 (by simp)
                        · exact beq_eq_false_iff_ne.mp h2
                    obtain ⟨t, hteq⟩ := replaceDS_cons c rest'
                    rw [hteq]
                    apply hasDouble_cons '/' (c :: t)
                    · rw [← hteq]
                      apply ih (c :: rest')
                      · simp [List.length_cons] at hl ⊢
                        omega
                      · exact hasTriple_tail '/' (c :: rest') htl
                    · refine Or.inr ?_
                      rw [List.head?_cons]
                      intro hs
                      exact hc (Option.some.inj hs)
              · rw [show replaceDS (a :: b :: rest)
                    = (if a = '/' ∧ b = '/' then '/' :: replaceDS rest
                       else a :: replaceDS (b :: rest)) from rfl]
                rw [if_neg hab]
                obtain ⟨t, hteq⟩ := replaceDS_cons b rest
                rw [hteq]
                apply hasDouble_cons a (b :: t)
                · rw [← hteq]
                  apply ih (b :: rest)
                  · simp [List.length_cons] at hl ⊢
                    omega
                  · exact hasTriple_tail a (b :: rest) h
                · by_cases hA : a = '/'
                  · refine Or.inr ?_
                    rw [List.head?_cons]
                    intro hs
                    exact hab ⟨hA, Option.some.inj hs⟩
                  · exact Or.inl hA

/-- A triple-free string becomes double-free after the replacement pass. -/
theorem replaceDS_noDouble (l : List Char) (h : hasTriple l = false) :
    hasDouble (replaceDS l) = false :=
  replaceDS_noDouble_fuel l.length l (Nat.le_refl _) h

/-- The optional head of an append with a non-empty left part. -/
theorem head?_append_left (l m : List Char) (h : l ≠ []) : (l ++ m).head? = l.head? := by
  cases l with
  | nil => exact absurd rfl h
  | cons a t => rfl

/-- C3: for all well-formed inputs, the path returned by get_pathspp
contains no doubled path separator anywhere in the output string. -/
theorem get_pathspp_no_double (pp ppname out localDir time add : List Char)
    (h : wellFormedSpec pp ppname out localDir time add) :
    hasDouble (get_pathspp pp ppname out localDir time add) = false := by
  obtain ⟨hpp, ⟨hpnN, hpnD, hpnH, hpnL⟩, ⟨hoN, hoD, hoH, hoL⟩,
    ⟨hlN, hlD, hlH, hlL⟩, htD, haD⟩ := h
  have h1 : hasDouble (add ++ '.' :: ncSeg) = false := by
    apply hasDouble_append add ('.' :: ncSeg) haD (by decide)
    right
    decide
  have h2 : hasDouble ('.' :: (add ++ '.' :: ncSeg)) = false := by
    apply hasDouble_cons '.' _ h1
    left
    decide
  have h3 : hasDouble (time ++ '.' :: (add ++ '.' :: ncSeg)) = false := by
    apply hasDouble_append _ _ htD h2
    right
    rw [List.head?_cons]
    decide
  have h4 : hasDouble ('.' :: (time ++ '.' :: (add ++ '.' :: ncSeg))) = false := by
    apply hasDouble_cons '.' _ h3
    left
    decide
  have hF : hasDouble (ppname ++ '.' :: (time ++ '.' :: (add ++ '.' :: ncSeg))) = false := by
    apply hasDouble_append _ _ hpnD h4
    right
    rw [List.head?_cons]
    decide
  have hFhead : (ppname ++ '.' :: (time ++ '.' :: (add ++ '.' :: ncSeg))).head? ≠ some '/' := by
    rw [head?_append_left _ _ hpnN]
    exact hpnH
  have r1 : hasDouble ('/' :: (ppname ++ '.' :: (time ++ '.' :: (add ++ '.' :: ncSeg))))
      = false :=
    hasDouble_cons '/' _ hF (Or.inr hFhead)
  have r2 : hasDouble
      (localDir ++ '/' :: (ppname ++ '.' :: (time ++ '.' :: (add ++ '.' :: ncSeg)))) = false :=
    hasDouble_append _ _ hlD r1 (Or.inl hlL)
  have r2h : (localDir ++ '/' :: (ppname ++ '.' :: (time ++ '.' :: (add ++ '.' :: ncSeg)))).head?
      ≠ some '/' := by
    rw [head?_append_left _ _ hlN]
    exact hlH
  have r3 : hasDouble ('/' :: (localDir ++ '/' ::
      (ppname ++ '.' :: (time ++ '.' :: (add ++ '.' :: ncSeg))))) = false :=
    hasDouble_cons '/' _ r2 (Or.inr r2h)
  have r4 : hasDouble (out ++ '/' :: (localDir ++ '/' ::
      (ppname ++ '.' :: (time ++ '.' :: (add ++ '.' :: ncSeg))))) = false :=
    hasDouble_append _ _ hoD r3 (Or.inl hoL)
  have r4h : (out ++ '/' :: (localDir ++ '/' ::
      (ppname ++ '.' :: (time ++ '.' :: (add ++ '.' :: ncSeg))))).head? ≠ some '/' := by
    rw [head?_append_left _ _ hoN]
    exact hoH
  have r5 : hasDouble ('/' :: (out ++ '/' :: (localDir ++ '/' ::
      (ppname ++ '.' :: (time ++ '.' :: (add ++ '.' :: ncSeg)))))) = false :=
    hasDouble_cons '/' _ r4 (Or.inr r4h)
  have hR : hasDouble (ppname ++ '/' :: (out ++ '/' :: (localDir ++ '/' ::
      (ppname ++ '.' :: (time ++ '.' :: (add ++ '.' :: ncSeg)))))) = false :=
    hasDouble_append _ _ hpnD r5 (Or.inl hpnL)
  obtain ⟨q, pn', hq⟩ := List.exists_cons_of_ne_nil hpnN
  have hqne : q ≠ '/' := by
    intro hq'
    apply hpnH
    rw [hq, hq', List.head?_cons]
  have hT : hasTriple (pp ++ '/' :: (ppname ++ '/' :: (out ++ '/' :: (localDir ++ '/' ::
      (ppname ++ '.' :: (time ++ '.' :: (add ++ '.' :: ncSeg))))))) = false := by
    conv_lhs => rw [hq, List.cons_append]
    apply hasTriple_append_left pp q _ hpp hqne
    rw [← List.cons_append, ← hq]
    exact noDouble_noTriple _ hR
  have hform : get_pathspp pp ppname out localDir time add
      = replaceDS (pp ++ '/' :: (ppname ++ '/' :: (out ++ '/' :: (localDir ++ '/' ::
          (ppname ++ '.' :: (time ++ '.' :: (add ++ '.' :: ncSeg))))))) := rfl
  rw [hform]
  exact replaceDS_noDouble _ hT

/-- Witness for C3 at the canonical inputs: an archive root with a trailing
slash, a component, the ts kind, the two-level annual/5yr layout, a time
range and a variable name. -/
theorem get_pathspp_no_double_witness :
    wellFormedSpec (str "/archive/user/exp/pp/") (str "atmos") (str "ts")
        (str "annual/5yr") (str "2000-2004") (str "tas")
      ∧ hasDouble (get_pathspp (str "/archive/user/exp/pp/") (str "atmos") (str "ts")
          (str "annual/5yr") (str "2000-2004") (str "tas")) = false := by
  constructor
  · decide
  · exact get_pathspp_no_double _ _ _ _ _ _ (by decide)

end GfdlUtils
